import Mathlib

/-!
# Verification of the test-sheet calculation core (planilla-ensayos)

Shallow embedding of the core logic of `src/App.jsx`: locale numeric
parsing/formatting (`parseNum`, `formatNum`), the derivation functions
(`calculateDeviation`, `calculateResistanceCorrection`, `calculateDAR`,
`calculatePI`), the classification rules (`getStatusTTR`, `getStatusTG`,
`getStatusIP`), the tap-row generator (`tapRows`), the editor state and its
tap-range mutation, project creation (`handleCreateProject`), and the
debounced-save timer semantics (`runDebounce`).

JavaScript numbers are modelled as `ENum`: an exact rational together with the
IEEE special values NaN / +Infinity / -Infinity (negative zero is not
distinguished; it plays no role in any of the code paths modelled here).
-/

/-- Model of a JavaScript number: a finite (exact rational) value or one of the
IEEE special values. -/
inductive ENum where
  | fin : ℚ → ENum
  | nan : ENum
  | pinf : ENum
  | ninf : ENum
deriving DecidableEq, Repr

namespace ENum

/-- JS `isNaN` on a number value. -/
def isNaN : ENum → Bool
  | .nan => true
  | _ => false

/-- IEEE negation. -/
def neg : ENum → ENum
  | .fin q => .fin (-q)
  | .nan => .nan
  | .pinf => .ninf
  | .ninf => .pinf

/-- IEEE addition (without -0). -/
def add : ENum → ENum → ENum
  | .nan, _ => .nan
  | _, .nan => .nan
  | .pinf, .ninf => .nan
  | .ninf, .pinf => .nan
  | .pinf, _ => .pinf
  | _, .pinf => .pinf
  | .ninf, _ => .ninf
  | _, .ninf => .ninf
  | .fin a, .fin b => .fin (a + b)

/-- IEEE subtraction. -/
def sub (a b : ENum) : ENum := a.add b.neg

/-- IEEE multiplication (without -0: a zero times an infinity is NaN,
finite products are exact). -/
def mul : ENum → ENum → ENum
  | .nan, _ => .nan
  | _, .nan => .nan
  | .fin a, .fin b => .fin (a * b)
  | .pinf, .pinf => .pinf
  | .pinf, .ninf => .ninf
  | .ninf, .pinf => .ninf
  | .ninf, .ninf => .pinf
  | .pinf, .fin b => if 0 < b then .pinf else if b < 0 then .ninf else .nan
  | .fin a, .pinf => if 0 < a then .pinf else if a < 0 then .ninf else .nan
  | .ninf, .fin b => if 0 < b then .ninf else if b < 0 then .pinf else .nan
  | .fin a, .ninf => if 0 < a then .ninf else if a < 0 then .pinf else .nan

/-- IEEE division (without -0: the finite zero is treated as +0, so a positive
finite value divided by zero is +Infinity, and 0/0 is NaN). -/
def div : ENum → ENum → ENum
  | .nan, _ => .nan
  | _, .nan => .nan
  | .pinf, .pinf => .nan
  | .pinf, .ninf => .nan
  | .ninf, .pinf => .nan
  | .ninf, .ninf => .nan
  | .fin _, .pinf => .fin 0
  | .fin _, .ninf => .fin 0
  | .pinf, .fin b => if b < 0 then .ninf else .pinf
  | .ninf, .fin b => if b < 0 then .pinf else .ninf
  | .fin a, .fin b =>
      if b = 0 then (if a = 0 then .nan else if 0 < a then .pinf else .ninf)
      else .fin (a / b)

/-- JS `<` (any comparison with NaN is false). -/
def lt : ENum → ENum → Bool
  | .nan, _ => false
  | _, .nan => false
  | .fin a, .fin b => decide (a < b)
  | .pinf, _ => false
  | _, .pinf => true
  | .ninf, .ninf => false
  | .ninf, _ => true
  | .fin _, .ninf => false

/-- JS `<=` (any comparison with NaN is false). -/
def le : ENum → ENum → Bool
  | .nan, _ => false
  | _, .nan => false
  | .fin a, .fin b => decide (a ≤ b)
  | _, .pinf => true
  | .pinf, _ => false
  | .ninf, _ => true
  | .fin _, .ninf => false

/-- JS `Math.abs`. -/
def abs : ENum → ENum
  | .fin q => .fin |q|
  | .nan => .nan
  | .pinf => .pinf
  | .ninf => .pinf

end ENum

/-- Replace the first occurrence of character `a` by `b`
(model of the one-pattern, non-global JS `String.replace`). -/
def replaceFirst (a b : Char) : List Char → List Char
  | [] => []
  | c :: r => if c = a then b :: r else c :: replaceFirst a b r

/-- Numeric value of a decimal digit character. -/
def digitVal (c : Char) : ℕ := c.toNat - 48

/-- Value of a most-significant-first run of decimal digit characters. -/
def digitsToNat (l : List Char) : ℕ := l.foldl (fun a c => 10 * a + digitVal c) 0

/-- Whitespace skipped by `parseFloat`. -/
def isWs (c : Char) : Bool := c = ' ' || c = '\t' || c = '\n' || c = '\r'

/-- Modelled from the JS builtin `parseFloat` (not repository code): optional
leading whitespace, optional sign, then either the literal `Infinity`
(yielding ±Infinity) or a decimal mantissa — integer digits, optional
fractional digits after a period — with an optional exponent part
(`e`/`E`, optional sign, digits; ignored when it has no digit, as in JS where
"1e" parses to 1); the longest valid prefix is parsed and anything after it
is ignored; NaN when no digit is found.  The mantissa/exponent arithmetic is
exact on rationals: binary double rounding, and the overflow of huge finite
literals to ±Infinity at the double range limit, are not modelled. -/
def jsParseFloat (cs0 : List Char) : ENum :=
  let cs := cs0.dropWhile isWs
  let neg : Bool := cs.head? = some '-'
  let body : List Char := if cs.head? = some '-' ∨ cs.head? = some '+' then cs.tail else cs
  if body.take 8 = "Infinity".data then (if neg then ENum.ninf else ENum.pinf)
  else
    let ip := body.takeWhile Char.isDigit
    let rest := body.dropWhile Char.isDigit
    let fp : List Char := if rest.head? = some '.' then rest.tail.takeWhile Char.isDigit else []
    let rest2 : List Char := if rest.head? = some '.' then rest.tail.dropWhile Char.isDigit else rest
    let etail : List Char := rest2.tail
    let eneg : Bool := etail.head? = some '-'
    let ebody : List Char := if etail.head? = some '-' ∨ etail.head? = some '+'
      then etail.tail else etail
    let ed : List Char := if rest2.head? = some 'e' ∨ rest2.head? = some 'E'
      then ebody.takeWhile Char.isDigit else []
    if ip = [] ∧ fp = [] then ENum.nan
    else
      let mant : ℚ := (digitsToNat ip : ℚ) + (digitsToNat fp : ℚ) / 10 ^ fp.length
      let v : ℚ := if ed = [] then mant
        else if eneg then mant / 10 ^ digitsToNat ed else mant * 10 ^ digitsToNat ed
      ENum.fin ((if neg then -1 else 1) * v)

/-- Function `parseNum` from App.jsx: a falsy (empty) input is numeric zero; otherwise
the first decimal comma is replaced by a period and the text is given to
`parseFloat`. -/
def parseNum (val : String) : ENum :=
  if val = "" then ENum.fin 0 else jsParseFloat (replaceFirst ',' '.' val.data)

/-- Function `calculateDeviation` from App.jsx. -/
def calculateDeviation (measured rated : String) : Option ENum :=
  let m := parseNum measured
  let r := parseNum rated
  if m.isNaN || r.isNaN || r = ENum.fin 0 then none
  else some (((m.sub r).div r).mul (ENum.fin 100))

/-- Function `calculateResistanceCorrection` from App.jsx; the two temperatures are the
`measuredTemp` / `refTemp` fields of `resistanceSettings`, passed explicitly
here. -/
def calculateResistanceCorrection (measuredVal measuredTemp refTemp : String) : Option ENum :=
  let m := parseNum measuredVal
  let tMeas := parseNum measuredTemp
  let tRef := parseNum refTemp
  if m.isNaN || tMeas.isNaN || tRef.isNaN then none
  else some (m.mul (((ENum.fin 235).add tRef).div ((ENum.fin 235).add tMeas)))

/-- Function `calculateDAR` from App.jsx. -/
def calculateDAR (val1m val30s : String) : Option ENum :=
  let v1 := parseNum val1m
  let v30 := parseNum val30s
  if v30 = ENum.fin 0 || v1.isNaN || v30.isNaN then none
  else some (v1.div v30)

/-- Function `calculatePI` from App.jsx. -/
def calculatePI (val10m val1m : String) : Option ENum :=
  let v10 := parseNum val10m
  let v1 := parseNum val1m
  if v1 = ENum.fin 0 || v10.isNaN || v1.isNaN then none
  else some (v10.div v1)

/-- Pass/fail/neutral classification carried by the status objects of App.jsx
(the green/red/gray colour classes and icons are presentation for exactly this
three-way split). -/
inductive Status where
  | pass : Status
  | fail : Status
  | neutral : Status
deriving DecidableEq, Repr

/-- Function `getStatusTTR` from App.jsx: neutral on null, pass iff `|dev| <= 0.5`. -/
def getStatusTTR (deviation : Option ENum) : Status :=
  match deviation with
  | none => Status.neutral
  | some v => if ENum.le (ENum.abs v) (ENum.fin (1/2)) then Status.pass else Status.fail

/-- Function `getStatusTG` from App.jsx: neutral on a falsy (empty) field, pass iff
`parseNum value < 0.5`. -/
def getStatusTG (valStr : String) : Status :=
  if valStr = "" then Status.neutral
  else if ENum.lt (parseNum valStr) (ENum.fin (1/2)) then Status.pass else Status.fail

/-- Function `getStatusIP` from App.jsx: classification together with the display
label. -/
def getStatusIP (piValue : Option ENum) : Status × String :=
  match piValue with
  | none => (Status.neutral, "-")
  | some v =>
      if ENum.lt (ENum.fin 1) v then (Status.pass, "ACEPTABLE")
      else (Status.fail, "NO ACEPTABLE")

/-! ## Number formatting (`formatNum`) -/

/-- Little-endian base-10 digits, by fuel recursion (the fuel is the number
itself, which always suffices); agrees with `Nat.digits 10` and reduces in the
kernel. -/
def natDigitsAux : ℕ → ℕ → List ℕ
  | _, 0 => []
  | 0, _ + 1 => []
  | f + 1, n + 1 => ((n + 1) % 10) :: natDigitsAux f ((n + 1) / 10)

/-- Little-endian base-10 digits of `n`. -/
def natDigits (n : ℕ) : List ℕ := natDigitsAux n n

/-- The character of a decimal digit. -/
def digitChar (d : ℕ) : Char := Char.ofNat (48 + d)

/-- Most-significant-first decimal digit characters of `n` (empty for 0). -/
def natToDigitChars (n : ℕ) : List Char := (natDigits n).reverse.map digitChar

/-- Decimal rendering of a natural number, as JS renders integers. -/
def natChars (n : ℕ) : List Char := if n = 0 then ['0'] else natToDigitChars n

/-- Exactly `d` decimal digit characters for a value `m < 10 ^ d`
(zero-padded on the left): the fraction part of `toFixed`. -/
def padZeros (d m : ℕ) : List Char :=
  List.replicate (d - (natDigits m).length) '0' ++ natToDigitChars m

/-- Modelled from the JS builtin `Number.prototype.toFixed` (not repository
code): non-finite values render as their `toString`; a finite value renders
sign, then the integer `n` nearest to `|x| * 10^d` (ties away from zero) with
a decimal point inserted `d` places from the right.  The model is exact on
rationals (it does not reproduce binary double rounding) and omits the
`|x| >= 10^21` exponential fallback, which the application never reaches. -/
def jsToFixed (v : ENum) (d : ℕ) : String :=
  match v with
  | ENum.nan => "NaN"
  | ENum.pinf => "Infinity"
  | ENum.ninf => "-Infinity"
  | ENum.fin q =>
      let sgn : List Char := if q < 0 then ['-'] else []
      let n : ℕ := (⌊|q| * 10 ^ d + 1 / 2⌋).toNat
      if d = 0 then String.mk (sgn ++ natChars n)
      else String.mk (sgn ++ natChars (n / 10 ^ d) ++ '.' :: padZeros d (n % 10 ^ d))

/-- Function `formatNum` from App.jsx: the placeholder `"-"` for null/undefined (here
`none`) and NaN, otherwise `toFixed` with the first period replaced by a
comma.  The default decimal count is 3. -/
def formatNum (val : Option ENum) (decimals : ℕ := 3) : String :=
  match val with
  | none => "-"
  | some v => if v.isNaN then "-" else String.mk (replaceFirst '.' ',' (jsToFixed v decimals).data)

/-- The rational actually denoted by `toFixed`-rounding `q` to `d` decimal
places: magnitude rounded half away from zero at the `d`-th place. -/
def jsRound (q : ℚ) (d : ℕ) : ℚ :=
  (if q < 0 then -1 else 1) * ((⌊|q| * 10 ^ d + 1 / 2⌋ : ℤ) : ℚ) / 10 ^ d

/-! ## Tap rows, editor state, project creation, debounce -/

/-- One generated tap row (`tapRows` elements of App.jsx). -/
structure Row where
  id : String
  label : String
deriving DecidableEq, Repr

/-- Function `tapRows` from App.jsx: the first loop counts `i` down from `tapRange` to
1 pushing `pos-i`, then the neutral row, then the second loop counts `i` up
from 1 to `tapRange` pushing `neg-i`. -/
def tapRows (tapRange : ℕ) : List Row :=
  ((List.range tapRange).map fun j =>
    ⟨"pos-" ++ toString (tapRange - j), "+" ++ toString (tapRange - j)⟩)
  ++ ⟨"neutral", "0 (Nominal)"⟩ ::
  ((List.range tapRange).map fun j =>
    ⟨"neg-" ++ toString (j + 1), "-" ++ toString (j + 1)⟩)

/-- A dynamic field map of a row object (field name to stored text). -/
abbrev FieldMap := List (String × String)

/-- A TG-delta or insulation row: a stable id plus its editable fields. -/
structure SheetRow where
  id : String
  fields : FieldMap
deriving DecidableEq, Repr

/-- The `headerInfo` record of App.jsx. -/
structure HeaderInfo where
  manufacturingNumber : String
  serialNumber : String
  client : String
  date : String
deriving DecidableEq, Repr

/-- The `resistanceSettings` record of App.jsx. -/
structure ResistanceSettings where
  measuredTemp : String
  refTemp : String
  conn1Name : String
  conn2Name : String
  conn3Name : String
deriving DecidableEq, Repr

/-- The local state of `TestSheetEditor` (the six pieces of `useState` that
participate in the autosave effect). -/
structure EditorState where
  tapRange : ℕ
  data : List (String × FieldMap)
  tgDeltaData : List SheetRow
  insulationData : List SheetRow
  headerInfo : HeaderInfo
  resistanceSettings : ResistanceSettings
deriving DecidableEq, Repr

/-- The tap-range select `onChange`: it calls only the `tapRange` state
setter; no other state (in particular `data`) is touched. -/
def setTapRangeOp (n : ℕ) (st : EditorState) : EditorState := { st with tapRange := n }

/-- A project document as written by App.jsx. -/
structure Project where
  id : String
  lastModified : String
  tapRange : ℕ
  headerInfo : HeaderInfo
  data : List (String × FieldMap)
  resistanceSettings : ResistanceSettings
  tgDeltaData : List SheetRow
  insulationData : List SheetRow
deriving DecidableEq, Repr

/-- Function `handleCreateProject` from App.jsx.  `generateId` is random in the source;
it is modelled as a supply `gen` of fresh ids, consumed in the source's
evaluation order (project id first, then the four TG-delta rows, then the six
insulation rows).  `now` and `today` stand for the two timestamp strings. -/
def handleCreateProject (gen : ℕ → String) (now today : String) : Project :=
  { id := gen 0
    lastModified := now
    tapRange := 5
    headerInfo := ⟨"", "", "", today⟩
    data := []
    resistanceSettings := ⟨"20", "75", "Conexión 1", "Conexión 2", "Conexión 3"⟩
    tgDeltaData := (List.range 4).map fun i => ⟨gen (1 + i), []⟩
    insulationData := (List.range 6).map fun i => ⟨gen (5 + i), []⟩ }

/-- The autosave effect of `TestSheetEditor`, as an event semantics: each
mutation at time `t` (milliseconds) with resulting snapshot `s` clears the
previous pending `setTimeout` and schedules a save of `s` at `t + 1000`; a
scheduled save is committed (one `onUpdate`/`setDoc` call) unless a later
mutation arrives strictly before its deadline.  `runDebounce` takes the
time-ordered mutation list and returns the list of committed writes in
order. -/
def runDebounce {σ : Type} : List (ℕ × σ) → List σ
  | [] => []
  | [(_, s)] => [s]
  | (t1, s1) :: (t2, s2) :: rest =>
      if t2 < t1 + 1000 then runDebounce ((t2, s2) :: rest)
      else s1 :: runDebounce ((t2, s2) :: rest)

/-- The mutation list is a single burst: every mutation lands inside the
1000 ms quiet window restarted by its predecessor. -/
def withinQuiet {σ : Type} : List (ℕ × σ) → Prop
  | [] => True
  | [_] => True
  | (t1, _) :: (t2, s2) :: rest => t2 < t1 + 1000 ∧ withinQuiet ((t2, s2) :: rest)

lemma ENum.isNaN_iff {v : ENum} : v.isNaN = true ↔ v = ENum.nan := by
  cases v <;> simp [ENum.isNaN]

lemma takeWhile_all {p : Char → Bool} {l : List Char} (h : ∀ c ∈ l, p c = true) :
    l.takeWhile p = l := by
  induction l with
  | nil => rfl
  | cons c r ih =>
      rw [List.takeWhile_cons, h c (List.mem_cons_self c r)]
      simp [ih fun x hx => h x (List.mem_cons_of_mem c hx)]

lemma dropWhile_all {p : Char → Bool} {l : List Char} (h : ∀ c ∈ l, p c = true) :
    l.dropWhile p = [] := by
  induction l with
  | nil => rfl
  | cons c r ih =>
      rw [List.dropWhile_cons, h c (List.mem_cons_self c r)]
      simp [ih fun x hx => h x (List.mem_cons_of_mem c hx)]

lemma takeWhile_all_append {p : Char → Bool} {l : List Char} (h : ∀ c ∈ l, p c = true)
    {x : Char} (hx : p x = false) (r : List Char) :
    (l ++ x :: r).takeWhile p = l := by
  induction l with
  | nil => simp [List.takeWhile_cons, hx]
  | cons c t ih =>
      rw [List.cons_append, List.takeWhile_cons, h c (List.mem_cons_self c t)]
      simp [ih fun y hy => h y (List.mem_cons_of_mem c hy)]

lemma dropWhile_all_append {p : Char → Bool} {l : List Char} (h : ∀ c ∈ l, p c = true)
    {x : Char} (hx : p x = false) (r : List Char) :
    (l ++ x :: r).dropWhile p = x :: r := by
  induction l with
  | nil => simp [List.dropWhile_cons, hx]
  | cons c t ih =>
      rw [List.cons_append, List.dropWhile_cons, h c (List.mem_cons_self c t)]
      simpa using ih fun y hy => h y (List.mem_cons_of_mem c hy)

lemma digit_facts {c : Char} (h : c.isDigit = true) :
    c ≠ '-' ∧ c ≠ '+' ∧ c ≠ '.' ∧ isWs c = false := by
  refine ⟨?_, ?_, ?_, ?_⟩
  · rintro rfl; exact absurd h (by decide)
  · rintro rfl; exact absurd h (by decide)
  · rintro rfl; exact absurd h (by decide)
  · simp only [isWs, Bool.or_eq_false_iff, decide_eq_false_iff_not]
    refine ⟨⟨⟨?_, ?_⟩, ?_⟩, ?_⟩ <;> rintro rfl <;> exact absurd h (by decide)

lemma dropWhile_isWs_cons {c : Char} (h : isWs c = false) (l : List Char) :
    (c :: l).dropWhile isWs = c :: l := by simp [List.dropWhile_cons, h]

lemma take_ne_infinity {c : Char} (hc : c.isDigit = true) (l : List Char) :
    (c :: l).take 8 ≠ "Infinity".data := by
  intro h
  have hc8 : ((c :: l).take 8).head? = some c := rfl
  rw [h] at hc8
  have hI : some 'I' = some c :=
    (show ("Infinity".data).head? = some 'I' from rfl).symm.trans hc8
  have hcI : c = 'I' := (Option.some.inj hI).symm
  rw [hcI] at hc
  exact absurd hc (by decide)

lemma jsParseFloat_pos (ip fp : List Char) (hip : ip ≠ [])
    (hipd : ∀ c ∈ ip, c.isDigit = true) (hfpd : ∀ c ∈ fp, c.isDigit = true) :
    jsParseFloat (ip ++ '.' :: fp) =
      ENum.fin ((digitsToNat ip : ℚ) + (digitsToNat fp : ℚ) / 10 ^ fp.length) := by
  obtain ⟨c, t, rfl⟩ : ∃ c t, ip = c :: t := by
    cases ip with
    | nil => exact absurd rfl hip
    | cons c t => exact ⟨c, t, rfl⟩
  obtain ⟨hc1, hc2, hc3, hc4⟩ := digit_facts (hipd c (List.mem_cons_self c t))
  have hws : List.dropWhile isWs (c :: t ++ '.' :: fp) = c :: t ++ '.' :: fp := by
    rw [List.cons_append]; exact dropWhile_isWs_cons hc4 _
  have hh : (c :: t ++ '.' :: fp).head? = some c := by
    rw [List.cons_append]; exact List.head?_cons
  have htk : List.takeWhile Char.isDigit (c :: t ++ '.' :: fp) = c :: t :=
    takeWhile_all_append hipd (by decide) fp
  have hdp : List.dropWhile Char.isDigit (c :: t ++ '.' :: fp) = '.' :: fp :=
    dropWhile_all_append hipd (by decide) fp
  simp only [jsParseFloat, hws, hh]
  rw [if_neg (show ¬(some c = some '-' ∨ some c = some '+') from by simp [hc1, hc2])]
  rw [if_neg (show ¬((c :: t ++ '.' :: fp).take 8 = "Infinity".data) from
    take_ne_infinity (hipd c (List.mem_cons_self c t)) _)]
  rw [htk, hdp, List.head?_cons, if_pos rfl, if_pos rfl, List.tail_cons,
    takeWhile_all hfpd, dropWhile_all hfpd]
  rw [if_neg (show ¬(([] : List Char).head? = some 'e' ∨ ([] : List Char).head? = some 'E')
    from by simp)]
  rw [if_neg (show ¬(c :: t = [] ∧ fp = []) from by simp), if_pos rfl]
  simp [hc1]

lemma jsParseFloat_neg (ip fp : List Char) (hip : ip ≠ [])
    (hipd : ∀ c ∈ ip, c.isDigit = true) (hfpd : ∀ c ∈ fp, c.isDigit = true) :
    jsParseFloat ('-' :: (ip ++ '.' :: fp)) =
      ENum.fin (-((digitsToNat ip : ℚ) + (digitsToNat fp : ℚ) / 10 ^ fp.length)) := by
  obtain ⟨c, t, rfl⟩ : ∃ c t, ip = c :: t := by
    cases ip with
    | nil => exact absurd rfl hip
    | cons c t => exact ⟨c, t, rfl⟩
  have htk : List.takeWhile Char.isDigit (c :: t ++ '.' :: fp) = c :: t :=
    takeWhile_all_append hipd (by decide) fp
  have hdp : List.dropWhile Char.isDigit (c :: t ++ '.' :: fp) = '.' :: fp :=
    dropWhile_all_append hipd (by decide) fp
  simp only [jsParseFloat, dropWhile_isWs_cons (show isWs '-' = false from by decide),
    List.head?_cons]
  rw [if_pos (Or.inl trivial), List.tail_cons]
  rw [if_neg (show ¬((c :: t ++ '.' :: fp).take 8 = "Infinity".data) from
    take_ne_infinity (hipd c (List.mem_cons_self c t)) _)]
  rw [htk, hdp, List.head?_cons, if_pos rfl, if_pos rfl, List.tail_cons,
    takeWhile_all hfpd, dropWhile_all hfpd]
  rw [if_neg (show ¬(([] : List Char).head? = some 'e' ∨ ([] : List Char).head? = some 'E')
    from by simp)]
  rw [if_neg (show ¬(c :: t = [] ∧ fp = []) from by simp), if_pos rfl]
  norm_num

lemma jsParseFloat_pos_int (ip : List Char) (hip : ip ≠ [])
    (hipd : ∀ c ∈ ip, c.isDigit = true) :
    jsParseFloat ip = ENum.fin (digitsToNat ip : ℚ) := by
  obtain ⟨c, t, rfl⟩ : ∃ c t, ip = c :: t := by
    cases ip with
    | nil => exact absurd rfl hip
    | cons c t => exact ⟨c, t, rfl⟩
  obtain ⟨hc1, hc2, hc3, hc4⟩ := digit_facts (hipd c (List.mem_cons_self c t))
  simp only [jsParseFloat, dropWhile_isWs_cons hc4, List.head?_cons]
  rw [if_neg (show ¬(some c = some '-' ∨ some c = some '+') from by simp [hc1, hc2])]
  rw [if_neg (show ¬((c :: t).take 8 = "Infinity".data) from
    take_ne_infinity (hipd c (List.mem_cons_self c t)) _)]
  rw [takeWhile_all hipd, dropWhile_all hipd]
  rw [if_neg (show ¬((List.nil (α := Char)).head? = some '.') from by simp)]
  rw [if_neg (show ¬((List.nil (α := Char)).head? = some '.') from by simp)]
  rw [if_neg (show ¬(([] : List Char).head? = some 'e' ∨ ([] : List Char).head? = some 'E')
    from by simp)]
  rw [if_neg (show ¬(c :: t = [] ∧ ([] : List Char) = []) from by simp), if_pos rfl]
  simp [hc1, digitsToNat]

lemma jsParseFloat_neg_int (ip : List Char) (hip : ip ≠ [])
    (hipd : ∀ c ∈ ip, c.isDigit = true) :
    jsParseFloat ('-' :: ip) = ENum.fin (-(digitsToNat ip : ℚ)) := by
  obtain ⟨c, t, rfl⟩ : ∃ c t, ip = c :: t := by
    cases ip with
    | nil => exact absurd rfl hip
    | cons c t => exact ⟨c, t, rfl⟩
  simp only [jsParseFloat, dropWhile_isWs_cons (show isWs '-' = false from by decide),
    List.head?_cons]
  rw [if_pos (Or.inl trivial), List.tail_cons]
  rw [if_neg (show ¬((c :: t).take 8 = "Infinity".data) from
    take_ne_infinity (hipd c (List.mem_cons_self c t)) _)]
  rw [takeWhile_all hipd, dropWhile_all hipd]
  rw [if_neg (show ¬((List.nil (α := Char)).head? = some '.') from by simp)]
  rw [if_neg (show ¬((List.nil (α := Char)).head? = some '.') from by simp)]
  rw [if_neg (show ¬(([] : List Char).head? = some 'e' ∨ ([] : List Char).head? = some 'E')
    from by simp)]
  rw [if_neg (show ¬(c :: t = [] ∧ ([] : List Char) = []) from by simp), if_pos rfl]
  norm_num [digitsToNat]

lemma natDigitsAux_eq : ∀ f n : ℕ, n ≤ f → natDigitsAux f n = Nat.digits 10 n
  | _, 0, _ => by simp [natDigitsAux]
  | 0, n + 1, h => absurd h (by omega)
  | f + 1, n + 1, h => by
      rw [natDigitsAux, Nat.digits_def' (by norm_num : (1:ℕ) < 10) (Nat.succ_pos n),
        natDigitsAux_eq f ((n + 1) / 10) (by omega)]

lemma natDigits_eq (n : ℕ) : natDigits n = Nat.digits 10 n := natDigitsAux_eq n n le_rfl

lemma digitChar_isDigit {d : ℕ} (h : d < 10) : (digitChar d).isDigit = true := by
  interval_cases d <;> decide

lemma digitVal_digitChar {d : ℕ} (h : d < 10) : digitVal (digitChar d) = d := by
  interval_cases d <;> decide

lemma foldl_reverse_ofDigits (L : List ℕ) :
    List.foldl (fun a d => 10 * a + d) 0 L.reverse = Nat.ofDigits 10 L := by
  induction L with
  | nil => simp [Nat.ofDigits]
  | cons d T ih =>
      rw [List.reverse_cons, List.foldl_append, ih, Nat.ofDigits_cons]
      simp [List.foldl]
      ring

lemma digitsToNat_natToDigitChars (n : ℕ) : digitsToNat (natToDigitChars n) = n := by
  unfold natToDigitChars digitsToNat
  rw [List.foldl_map]
  have hlt : ∀ d ∈ (natDigits n).reverse, d < 10 := by
    intro d hd
    rw [List.mem_reverse, natDigits_eq] at hd
    exact Nat.digits_lt_base (by norm_num) hd
  rw [List.foldl_ext _ (fun a d => 10 * a + d) 0
    (fun a d hd => by rw [digitVal_digitChar (hlt d hd)])]
  rw [foldl_reverse_ofDigits, natDigits_eq, Nat.ofDigits_digits]

lemma natToDigitChars_isDigit (n : ℕ) : ∀ c ∈ natToDigitChars n, c.isDigit = true := by
  intro c hc
  obtain ⟨d, hd, rfl⟩ := List.mem_map.mp hc
  rw [List.mem_reverse, natDigits_eq] at hd
  exact digitChar_isDigit (Nat.digits_lt_base (by norm_num) hd)

lemma natChars_isDigit (n : ℕ) : ∀ c ∈ natChars n, c.isDigit = true := by
  intro c hc
  unfold natChars at hc
  split at hc
  · simp at hc; subst hc; decide
  · exact natToDigitChars_isDigit n c hc

lemma natChars_ne_nil (n : ℕ) : natChars n ≠ [] := by
  unfold natChars
  split
  · simp
  · unfold natToDigitChars
    simp only [ne_eq, List.map_eq_nil_iff, List.reverse_eq_nil_iff, natDigits_eq]
    exact Nat.digits_ne_nil_iff_ne_zero.mpr (by assumption)

lemma digitsToNat_natChars (n : ℕ) : digitsToNat (natChars n) = n := by
  unfold natChars
  split
  · subst n; decide
  · exact digitsToNat_natToDigitChars n

lemma digitsLen_le {m d : ℕ} (h : m < 10 ^ d) : (Nat.digits 10 m).length ≤ d := by
  by_cases hm : m = 0
  · simp [hm]
  · by_contra hlt
    push_neg at hlt
    have h2 : (10:ℕ) ^ (Nat.digits 10 m).length ≤ 10 * m :=
      Nat.base_pow_length_digits_le 10 m (by norm_num) hm
    have h3 : (10:ℕ) ^ (d + 1) ≤ 10 ^ (Nat.digits 10 m).length :=
      Nat.pow_le_pow_right (by norm_num) hlt
    have h4 : (10:ℕ) ^ (d + 1) = 10 * 10 ^ d := by ring
    omega

lemma padZeros_isDigit (d m : ℕ) : ∀ c ∈ padZeros d m, c.isDigit = true := by
  intro c hc
  unfold padZeros at hc
  rcases List.mem_append.mp hc with hc | hc
  · rw [List.eq_of_mem_replicate hc]; decide
  · exact natToDigitChars_isDigit m c hc

lemma foldl_digit_replicate_zero (z : ℕ) :
    List.foldl (fun a c => 10 * a + digitVal c) 0 (List.replicate z '0') = 0 := by
  induction z with
  | zero => rfl
  | succ z ih => rw [List.replicate_succ, List.foldl_cons]; simpa [digitVal] using ih

lemma digitsToNat_padZeros (d m : ℕ) : digitsToNat (padZeros d m) = m := by
  unfold padZeros digitsToNat
  rw [List.foldl_append, foldl_digit_replicate_zero]
  exact digitsToNat_natToDigitChars m

lemma padZeros_length {d m : ℕ} (h : m < 10 ^ d) : (padZeros d m).length = d := by
  unfold padZeros natToDigitChars
  have hlen : (natDigits m).length ≤ d := by rw [natDigits_eq]; exact digitsLen_le h
  simp [List.length_append, List.length_replicate]
  omega

lemma replaceFirst_of_not_mem {a : Char} (b : Char) {l : List Char} (h : a ∉ l) :
    replaceFirst a b l = l := by
  induction l with
  | nil => rfl
  | cons c r ih =>
      rw [replaceFirst, if_neg (fun e => h (by rw [← e]; exact List.mem_cons_self c r))]
      rw [ih fun hm => h (List.mem_cons_of_mem c hm)]

lemma replaceFirst_append {a : Char} (b : Char) {l : List Char} (h : a ∉ l) (r : List Char) :
    replaceFirst a b (l ++ a :: r) = l ++ b :: r := by
  induction l with
  | nil => simp [replaceFirst]
  | cons c t ih =>
      rw [List.cons_append, replaceFirst, if_neg (fun e => h (by rw [← e]; exact List.mem_cons_self c t)),
        ih fun hm => h (List.mem_cons_of_mem c hm), List.cons_append]

lemma isDigit_ne_comma {c : Char} (h : c.isDigit = true) : c ≠ ',' := by
  rintro rfl; exact absurd h (by decide)

lemma comma_not_mem_digits {l : List Char} (h : ∀ c ∈ l, c.isDigit = true) : ',' ∉ l :=
  fun hm => isDigit_ne_comma (h ',' hm) rfl

lemma dot_not_mem_digits {l : List Char} (h : ∀ c ∈ l, c.isDigit = true) : '.' ∉ l :=
  fun hm => (digit_facts (h '.' hm)).2.2.1 rfl

/-- A nonempty all-digit string parses to the value of its digits. -/
lemma parseNum_digits {s : String} (hne : s.data ≠ [])
    (hd : ∀ c ∈ s.data, c.isDigit = true) :
    parseNum s = ENum.fin (digitsToNat s.data : ℚ) := by
  have hs : s ≠ "" := fun e => hne (by simp [e])
  rw [parseNum, if_neg hs, replaceFirst_of_not_mem '.' (comma_not_mem_digits hd)]
  exact jsParseFloat_pos_int s.data hne hd

lemma parseNum_100c5 : parseNum "100,5" = ENum.fin (201 / 2) := by
  rw [parseNum, if_neg (by decide)]
  rw [show "100,5".data = ['1', '0', '0'] ++ ',' :: ['5'] from by decide]
  rw [replaceFirst_append '.' (by decide) _]
  rw [jsParseFloat_pos _ _ (by decide) (by decide) (by decide)]
  norm_num [show digitsToNat ['1', '0', '0'] = 100 from by decide,
    show digitsToNat ['5'] = 5 from by decide]

lemma parseNum_0c5 : parseNum "0,5" = ENum.fin (1 / 2) := by
  rw [parseNum, if_neg (by decide)]
  rw [show "0,5".data = ['0'] ++ ',' :: ['5'] from by decide]
  rw [replaceFirst_append '.' (by decide) _]
  rw [jsParseFloat_pos _ _ (by decide) (by decide) (by decide)]
  norm_num [show digitsToNat ['0'] = 0 from by decide,
    show digitsToNat ['5'] = 5 from by decide]

lemma parseNum_100 : parseNum "100" = ENum.fin 100 := by
  rw [parseNum_digits (by decide) (by decide)]
  norm_num [show digitsToNat "100".data = 100 from by decide]

lemma parseNum_101 : parseNum "101" = ENum.fin 101 := by
  rw [parseNum_digits (by decide) (by decide)]
  norm_num [show digitsToNat "101".data = 101 from by decide]

lemma parseNum_10 : parseNum "10" = ENum.fin 10 := by
  rw [parseNum_digits (by decide) (by decide)]
  norm_num [show digitsToNat "10".data = 10 from by decide]

lemma parseNum_20 : parseNum "20" = ENum.fin 20 := by
  rw [parseNum_digits (by decide) (by decide)]
  norm_num [show digitsToNat "20".data = 20 from by decide]

lemma parseNum_75 : parseNum "75" = ENum.fin 75 := by
  rw [parseNum_digits (by decide) (by decide)]
  norm_num [show digitsToNat "75".data = 75 from by decide]

lemma parseNum_1 : parseNum "1" = ENum.fin 1 := by
  rw [parseNum_digits (by decide) (by decide)]
  norm_num [show digitsToNat "1".data = 1 from by decide]

lemma parseNum_2 : parseNum "2" = ENum.fin 2 := by
  rw [parseNum_digits (by decide) (by decide)]
  norm_num [show digitsToNat "2".data = 2 from by decide]

lemma parseNum_5 : parseNum "5" = ENum.fin 5 := by
  rw [parseNum_digits (by decide) (by decide)]
  norm_num [show digitsToNat "5".data = 5 from by decide]

lemma calculateDeviation_eq {m r : String} {qm qr : ℚ}
    (hm : parseNum m = ENum.fin qm) (hr : parseNum r = ENum.fin qr) (h : qr ≠ 0) :
    calculateDeviation m r = some (ENum.fin ((qm - qr) / qr * 100)) := by
  simp [calculateDeviation, hm, hr, ENum.isNaN, ENum.sub, ENum.add, ENum.neg, ENum.div,
    ENum.mul, h, sub_eq_add_neg]

lemma calculateDeviation_none_iff (m r : String) :
    calculateDeviation m r = none ↔
      parseNum m = ENum.nan ∨ parseNum r = ENum.nan ∨ parseNum r = ENum.fin 0 := by
  simp only [calculateDeviation]
  split
  · rename_i h
    simp only [Bool.or_eq_true, decide_eq_true_eq, ENum.isNaN_iff] at h
    constructor
    · intro _; tauto
    · intro _; rfl
  · rename_i h
    simp only [Bool.or_eq_true, decide_eq_true_eq, ENum.isNaN_iff] at h
    constructor
    · intro hc; exact absurd hc (by simp)
    · intro hr; exact absurd hr (by tauto)

lemma calculateResistanceCorrection_none_iff (mv tm tr : String) :
    calculateResistanceCorrection mv tm tr = none ↔
      parseNum mv = ENum.nan ∨ parseNum tm = ENum.nan ∨ parseNum tr = ENum.nan := by
  simp only [calculateResistanceCorrection]
  split
  · rename_i h
    simp only [Bool.or_eq_true, ENum.isNaN_iff] at h
    constructor
    · intro _; tauto
    · intro _; rfl
  · rename_i h
    simp only [Bool.or_eq_true, ENum.isNaN_iff] at h
    constructor
    · intro hc; exact absurd hc (by simp)
    · intro hr; exact absurd hr (by tauto)

lemma calculateResistanceCorrection_eq {mv tm tr : String} {m t1 t2 : ℚ}
    (h1 : parseNum mv = ENum.fin m) (h2 : parseNum tm = ENum.fin t1)
    (h3 : parseNum tr = ENum.fin t2) (h : 235 + t1 ≠ 0) :
    calculateResistanceCorrection mv tm tr =
      some (ENum.fin (m * ((235 + t2) / (235 + t1)))) := by
  simp [calculateResistanceCorrection, h1, h2, h3, ENum.isNaN, ENum.add, ENum.div, ENum.mul, h]

lemma calculateDAR_none_iff (a b : String) :
    calculateDAR a b = none ↔
      parseNum a = ENum.nan ∨ parseNum b = ENum.nan ∨ parseNum b = ENum.fin 0 := by
  simp only [calculateDAR]
  split
  · rename_i h
    simp only [Bool.or_eq_true, decide_eq_true_eq, ENum.isNaN_iff] at h
    constructor
    · intro _; tauto
    · intro _; rfl
  · rename_i h
    simp only [Bool.or_eq_true, decide_eq_true_eq, ENum.isNaN_iff] at h
    constructor
    · intro hc; exact absurd hc (by simp)
    · intro hr; exact absurd hr (by tauto)

lemma calculateDAR_eq {a b : String} {q1 q30 : ℚ}
    (h1 : parseNum a = ENum.fin q1) (h30 : parseNum b = ENum.fin q30) (h : q30 ≠ 0) :
    calculateDAR a b = some (ENum.fin (q1 / q30)) := by
  simp [calculateDAR, h1, h30, ENum.isNaN, ENum.div, h]

lemma calculatePI_none_iff (a b : String) :
    calculatePI a b = none ↔
      parseNum a = ENum.nan ∨ parseNum b = ENum.nan ∨ parseNum b = ENum.fin 0 := by
  simp only [calculatePI]
  split
  · rename_i h
    simp only [Bool.or_eq_true, decide_eq_true_eq, ENum.isNaN_iff] at h
    constructor
    · intro _; tauto
    · intro _; rfl
  · rename_i h
    simp only [Bool.or_eq_true, decide_eq_true_eq, ENum.isNaN_iff] at h
    constructor
    · intro hc; exact absurd hc (by simp)
    · intro hr; exact absurd hr (by tauto)

lemma calculatePI_eq {a b : String} {q10 q1 : ℚ}
    (h10 : parseNum a = ENum.fin q10) (h1 : parseNum b = ENum.fin q1) (h : q1 ≠ 0) :
    calculatePI a b = some (ENum.fin (q10 / q1)) := by
  simp [calculatePI, h10, h1, ENum.isNaN, ENum.div, h]

lemma isNaN_fin (q : ℚ) : (ENum.fin q).isNaN = false := rfl

lemma data_mk (l : List Char) : (String.mk l).data = l := rfl

lemma mk_ne_empty {l : List Char} (h : l ≠ []) : String.mk l ≠ "" :=
  fun e => h (congrArg String.data e)

lemma div_mod_cast_q (n d : ℕ) :
    ((n / 10 ^ d : ℕ) : ℚ) + ((n % 10 ^ d : ℕ) : ℚ) / 10 ^ d = (n : ℚ) / 10 ^ d := by
  have h := Nat.div_add_mod n (10 ^ d)
  have hc : ((10 : ℚ)) ^ d * ((n / 10 ^ d : ℕ) : ℚ) + ((n % 10 ^ d : ℕ) : ℚ) = (n : ℚ) := by
    exact_mod_cast congrArg (Nat.cast : ℕ → ℚ) h
  have h10 : ((10 : ℚ)) ^ d ≠ 0 := by positivity
  field_simp
  linarith

lemma parseNum_formatNum_fin (q : ℚ) (d : ℕ) :
    parseNum (formatNum (some (ENum.fin q)) d) = ENum.fin (jsRound q d) := by
  have hfl : 0 ≤ ⌊|q| * 10 ^ d + 1 / 2⌋ := Int.floor_nonneg.mpr (by positivity)
  simp only [formatNum, jsToFixed, isNaN_fin, Bool.false_eq_true, if_false]
  set n : ℕ := (⌊|q| * 10 ^ d + 1 / 2⌋).toNat with hn
  have hcast : ((n : ℕ) : ℚ) = ((⌊|q| * 10 ^ d + 1 / 2⌋ : ℤ) : ℚ) := by
    rw [hn]; exact_mod_cast Int.toNat_of_nonneg hfl
  by_cases hd : d = 0
  · subst hd
    rw [if_pos rfl]
    by_cases hq : q < 0
    · rw [if_pos hq]
      simp only [data_mk, List.singleton_append]
      have hdot : '.' ∉ ('-' :: natChars n : List Char) := by
        intro hm
        rcases List.mem_cons.mp hm with h | h
        · exact absurd h (by decide)
        · exact absurd (natChars_isDigit n '.' h) (by decide)
      have hcomma : ',' ∉ ('-' :: natChars n : List Char) := by
        intro hm
        rcases List.mem_cons.mp hm with h | h
        · exact absurd h (by decide)
        · exact absurd (natChars_isDigit n ',' h) (by decide)
      rw [replaceFirst_of_not_mem ',' hdot]
      rw [parseNum, if_neg (mk_ne_empty (by simp)), data_mk]
      rw [replaceFirst_of_not_mem '.' hcomma]
      rw [jsParseFloat_neg_int _ (natChars_ne_nil n) (natChars_isDigit n)]
      rw [digitsToNat_natChars, jsRound, if_pos hq, hcast]
      norm_num
    · rw [if_neg hq]
      simp only [data_mk, List.nil_append]
      have hdot : '.' ∉ natChars n := dot_not_mem_digits (natChars_isDigit n)
      have hcomma : ',' ∉ natChars n := comma_not_mem_digits (natChars_isDigit n)
      rw [replaceFirst_of_not_mem ',' hdot]
      rw [parseNum, if_neg (mk_ne_empty (natChars_ne_nil n)), data_mk]
      rw [replaceFirst_of_not_mem '.' hcomma]
      rw [jsParseFloat_pos_int _ (natChars_ne_nil n) (natChars_isDigit n)]
      rw [digitsToNat_natChars, jsRound, if_neg hq, hcast]
      norm_num
  · rw [if_neg hd]
    have hmod : n % 10 ^ d < 10 ^ d := Nat.mod_lt _ (by positivity)
    have hflen : (padZeros d (n % 10 ^ d)).length = d := padZeros_length hmod
    have hintd : ∀ c ∈ natChars (n / 10 ^ d), c.isDigit = true := natChars_isDigit _
    have hfracd : ∀ c ∈ padZeros d (n % 10 ^ d), c.isDigit = true := padZeros_isDigit _ _
    by_cases hq : q < 0
    · rw [if_pos hq]
      simp only [data_mk, List.singleton_append, List.cons_append, List.nil_append]
      have hdot : '.' ∉ '-' :: natChars (n / 10 ^ d) := by
        intro hm
        rcases List.mem_cons.mp hm with h | h
        · exact absurd h (by decide)
        · exact absurd (hintd '.' h) (by decide)
      have hcomma : ',' ∉ '-' :: natChars (n / 10 ^ d) := by
        intro hm
        rcases List.mem_cons.mp hm with h | h
        · exact absurd h (by decide)
        · exact absurd (hintd ',' h) (by decide)
      rw [show ('-' :: (natChars (n / 10 ^ d) ++ '.' :: padZeros d (n % 10 ^ d)) : List Char)
        = ('-' :: natChars (n / 10 ^ d)) ++ '.' :: padZeros d (n % 10 ^ d) from rfl]
      rw [replaceFirst_append ',' hdot]
      rw [parseNum, if_neg (mk_ne_empty (by simp)), data_mk]
      rw [replaceFirst_append '.' hcomma]
      rw [show (('-' :: natChars (n / 10 ^ d)) ++ '.' :: padZeros d (n % 10 ^ d) : List Char)
        = '-' :: (natChars (n / 10 ^ d) ++ '.' :: padZeros d (n % 10 ^ d)) from rfl]
      rw [jsParseFloat_neg _ _ (natChars_ne_nil _) hintd hfracd]
      rw [digitsToNat_natChars, digitsToNat_padZeros, hflen, div_mod_cast_q]
      rw [jsRound, if_pos hq, hcast]
      ring_nf
    · rw [if_neg hq]
      simp only [data_mk, List.nil_append]
      have hdot : '.' ∉ natChars (n / 10 ^ d) := dot_not_mem_digits hintd
      have hcomma : ',' ∉ natChars (n / 10 ^ d) := comma_not_mem_digits hintd
      rw [replaceFirst_append ',' hdot]
      rw [parseNum, if_neg (mk_ne_empty (by simp [natChars_ne_nil])), data_mk]
      rw [replaceFirst_append '.' hcomma]
      rw [jsParseFloat_pos _ _ (natChars_ne_nil _) hintd hfracd]
      rw [digitsToNat_natChars, digitsToNat_padZeros, hflen, div_mod_cast_q]
      rw [jsRound, if_neg hq, hcast]
      ring_nf

lemma tapRows_length (N : ℕ) : (tapRows N).length = 2 * N + 1 := by
  simp [tapRows]
  omega

lemma tapRows_pos {N k : ℕ} (h1 : 1 ≤ k) (h2 : k ≤ N) :
    (tapRows N)[N - k]? = some ⟨"pos-" ++ toString k, "+" ++ toString k⟩ := by
  have hlt : N - k < N := by omega
  rw [tapRows, List.getElem?_append_left (by simpa using hlt)]
  rw [List.getElem?_map, List.getElem?_range hlt]
  have h3 : N - (N - k) = k := by omega
  simp [h3]

lemma tapRows_neutral (N : ℕ) :
    (tapRows N)[N]? = some ⟨"neutral", "0 (Nominal)"⟩ := by
  rw [tapRows, List.getElem?_append_right (by simp)]
  simp

lemma tapRows_neg {N k : ℕ} (h1 : 1 ≤ k) (h2 : k ≤ N) :
    (tapRows N)[N + k]? = some ⟨"neg-" ++ toString k, "-" ++ toString k⟩ := by
  obtain ⟨j, rfl⟩ : ∃ j, k = j + 1 := ⟨k - 1, by omega⟩
  rw [tapRows, List.getElem?_append_right (by simp)]
  have hidx : N + (j + 1) - (List.map
      (fun j => (⟨"pos-" ++ toString (N - j), "+" ++ toString (N - j)⟩ : Row))
      (List.range N)).length = j + 1 := by simp
  rw [hidx, List.getElem?_cons_succ, List.getElem?_map, List.getElem?_range (by omega)]
  simp

lemma runDebounce_burst {σ : Type} (ms : List (ℕ × σ)) (h : ms ≠ []) (hq : withinQuiet ms) :
    runDebounce ms = [(ms.getLast h).2] := by
  induction ms with
  | nil => exact absurd rfl h
  | cons p rest ih =>
      cases rest with
      | nil => obtain ⟨t, s⟩ := p; rfl
      | cons p2 rest2 =>
          obtain ⟨t1, s1⟩ := p
          obtain ⟨t2, s2⟩ := p2
          obtain ⟨hlt, hq2⟩ := hq
          rw [runDebounce, if_pos hlt, ih (by simp) hq2]
          simp [List.getLast_cons]

/-- C1: `deviationPercent` is `None` exactly when an input is unparsable (NaN)
or the rated value parses to 0, and otherwise equals
`(measured - rated) / rated * 100`; in particular
`deviationPercent("100,5", "100") = 0.5` and `deviationPercent("101", "100") = 1`. -/
theorem C1_deviationPercent :
    (∀ m r, calculateDeviation m r = none ↔
      parseNum m = ENum.nan ∨ parseNum r = ENum.nan ∨ parseNum r = ENum.fin 0)
    ∧ (∀ m r qm qr, parseNum m = ENum.fin qm → parseNum r = ENum.fin qr → qr ≠ 0 →
        calculateDeviation m r = some (ENum.fin ((qm - qr) / qr * 100)))
    ∧ calculateDeviation "100,5" "100" = some (ENum.fin (1 / 2))
    ∧ calculateDeviation "101" "100" = some (ENum.fin 1) := by
  refine ⟨calculateDeviation_none_iff,
    fun m r qm qr hm hr h => calculateDeviation_eq hm hr h, ?_, ?_⟩
  · rw [calculateDeviation_eq parseNum_100c5 parseNum_100 (by norm_num)]; norm_num
  · rw [calculateDeviation_eq parseNum_101 parseNum_100 (by norm_num)]; norm_num

theorem C1_deviationPercent_witness :
    calculateDeviation "101" "100" = some (ENum.fin ((101 - 100) / 100 * 100)) :=
  C1_deviationPercent.2.1 "101" "100" 101 100 parseNum_101 parseNum_100 (by norm_num)

/-- C3: for every tap range `N ≤ 16` the generator produces exactly `2N+1`
rows in the order `+N … +1, 0 (Nominal), -1 … -N`, with ids `pos-k`
(position `N - k` from the top, i.e. k descending), `neutral`, and `neg-k`
(position `N + k`, i.e. k ascending); regeneration with the same `N` yields
the same rows (the generator is pure, so stability is definitional). -/
theorem C3_tapRowGenerator_spec : ∀ N : ℕ, N ≤ 16 →
    (tapRows N).length = 2 * N + 1
    ∧ (∀ k, 1 ≤ k → k ≤ N →
        (tapRows N)[N - k]? = some ⟨"pos-" ++ toString k, "+" ++ toString k⟩)
    ∧ (tapRows N)[N]? = some ⟨"neutral", "0 (Nominal)"⟩
    ∧ (∀ k, 1 ≤ k → k ≤ N →
        (tapRows N)[N + k]? = some ⟨"neg-" ++ toString k, "-" ++ toString k⟩)
    ∧ tapRows N = tapRows N := by
  intro N _
  exact ⟨tapRows_length N, fun k h1 h2 => tapRows_pos h1 h2, tapRows_neutral N,
    fun k h1 h2 => tapRows_neg h1 h2, rfl⟩

theorem C3_tapRowGenerator_spec_witness :
    (tapRows 2).length = 2 * 2 + 1
    ∧ (tapRows 2)[2 - 1]? = some ⟨"pos-" ++ toString 1, "+" ++ toString 1⟩ :=
  ⟨(C3_tapRowGenerator_spec 2 (by norm_num)).1,
   (C3_tapRowGenerator_spec 2 (by norm_num)).2.1 1 (by norm_num) (by norm_num)⟩

/-- C4: classifications are boundary-inclusive exactly as specified: a derived
TTR deviation of absolute value exactly 0.5 is PASS; a tgPercent field parsing
to exactly 0.5 is FAIL; a polarization index of exactly 1.0 is FAIL with the
literal label "NO ACEPTABLE", and PASS carries "ACEPTABLE". -/
theorem C4_classification_boundaries :
    (∀ m r q, calculateDeviation m r = some (ENum.fin q) → |q| = 1 / 2 →
      getStatusTTR (calculateDeviation m r) = Status.pass)
    ∧ (∀ s, parseNum s = ENum.fin (1 / 2) → getStatusTG s = Status.fail)
    ∧ (∀ a b, calculatePI a b = some (ENum.fin 1) →
        getStatusIP (calculatePI a b) = (Status.fail, "NO ACEPTABLE"))
    ∧ (∀ v, (getStatusIP v).1 = Status.pass → (getStatusIP v).2 = "ACEPTABLE") := by
  refine ⟨?_, ?_, ?_, ?_⟩
  · intro m r q h habs
    rw [h]
    simp [getStatusTTR, ENum.abs, ENum.le, habs]
  · intro s hs
    have hne : s ≠ "" := by
      intro e
      rw [e, parseNum, if_pos rfl] at hs
      simp at hs
    rw [getStatusTG, if_neg hne, hs]
    simp [ENum.lt]
  · intro a b h
    rw [h]
    simp [getStatusIP, ENum.lt]
  · intro v hp
    match v with
    | none => simp [getStatusIP] at hp
    | some w =>
        by_cases hw : ENum.lt (ENum.fin 1) w = true
        · simp [getStatusIP, hw]
        · simp [getStatusIP, hw] at hp

theorem C4_classification_boundaries_witness :
    getStatusTTR (calculateDeviation "100,5" "100") = Status.pass
    ∧ getStatusTG "0,5" = Status.fail :=
  ⟨C4_classification_boundaries.1 "100,5" "100" (1 / 2)
      (by rw [calculateDeviation_eq parseNum_100c5 parseNum_100 (by norm_num)]; norm_num)
      (by norm_num),
   C4_classification_boundaries.2.1 "0,5" parseNum_0c5⟩

/-- C5: a burst of `N ≥ 1` mutations, each arriving within the 1000 ms quiet
window restarted by its predecessor, commits exactly one repository write,
and that write carries the snapshot of the last mutation of the burst. -/
theorem C5_debounce_single_write (σ : Type) (ms : List (ℕ × σ)) (h : ms ≠ [])
    (hq : withinQuiet ms) :
    runDebounce ms = [(ms.getLast h).2] :=
  runDebounce_burst ms h hq

theorem C5_debounce_single_write_witness :
    runDebounce [((0 : ℕ), (10 : ℕ)), (400, 20), (800, 30)] = [30] := by
  have h := C5_debounce_single_write ℕ [((0 : ℕ), (10 : ℕ)), (400, 20), (800, 30)]
    (by simp) ⟨by norm_num, by norm_num, trivial⟩
  rw [h]
  rfl

/-- C6: `resistanceCorrected` is `None` exactly when one of the three inputs
is unparsable, and otherwise computes
`measured * (235 + refTemp) / (235 + measuredTemp)` with the fixed constant
235; in particular for measured "10", measuredTemp "20", refTemp "75" it is
`10 * 310 / 255 = 620/51 ≈ 12.157`. -/
theorem C6_resistanceCorrection_spec :
    (∀ mv tm tr, calculateResistanceCorrection mv tm tr = none ↔
      parseNum mv = ENum.nan ∨ parseNum tm = ENum.nan ∨ parseNum tr = ENum.nan)
    ∧ (∀ mv tm tr m t1 t2, parseNum mv = ENum.fin m → parseNum tm = ENum.fin t1 →
        parseNum tr = ENum.fin t2 → 235 + t1 ≠ 0 →
        calculateResistanceCorrection mv tm tr =
          some (ENum.fin (m * ((235 + t2) / (235 + t1)))))
    ∧ calculateResistanceCorrection "10" "20" "75" = some (ENum.fin (620 / 51)) := by
  refine ⟨calculateResistanceCorrection_none_iff,
    fun mv tm tr m t1 t2 h1 h2 h3 h => calculateResistanceCorrection_eq h1 h2 h3 h, ?_⟩
  rw [calculateResistanceCorrection_eq parseNum_10 parseNum_20 parseNum_75 (by norm_num)]
  norm_num

theorem C6_resistanceCorrection_spec_witness :
    calculateResistanceCorrection "10" "20" "75" =
      some (ENum.fin (10 * ((235 + 75) / (235 + 20)))) :=
  C6_resistanceCorrection_spec.2.1 "10" "20" "75" 10 20 75
    parseNum_10 parseNum_20 parseNum_75 (by norm_num)

/-- C7: changing the tap range only replaces `tapRange` and never touches the
per-tap `data` mapping (entries for positions outside the new range stay
verbatim as dormant entries); lowering the range and then restoring it yields
the original state, so every per-position lookup is unchanged; and the
deterministic position ids (`pos-k` / `neutral` / `neg-k`) reappear in the
generated row list for every position inside the range. -/
theorem C7_tapRange_frame :
    (∀ st n, (setTapRangeOp n st).data = st.data)
    ∧ (∀ st n, setTapRangeOp st.tapRange (setTapRangeOp n st) = st)
    ∧ (∀ st n i, (setTapRangeOp st.tapRange (setTapRangeOp n st)).data.lookup i =
        st.data.lookup i)
    ∧ (∀ N k, 1 ≤ k → k ≤ N → ("pos-" ++ toString k) ∈ (tapRows N).map Row.id
        ∧ ("neg-" ++ toString k) ∈ (tapRows N).map Row.id)
    ∧ (∀ N, "neutral" ∈ (tapRows N).map Row.id) := by
  refine ⟨fun st n => rfl, fun st n => by cases st; rfl, fun st n i => rfl, ?_, ?_⟩
  · intro N k h1 h2
    constructor
    · have h := tapRows_pos (N := N) h1 h2
      exact (List.mem_map_of_mem Row.id (List.getElem?_mem h) :)
    · have h := tapRows_neg (N := N) h1 h2
      exact (List.mem_map_of_mem Row.id (List.getElem?_mem h) :)
  · intro N
    have h := tapRows_neutral N
    exact (List.mem_map_of_mem Row.id (List.getElem?_mem h) :)

theorem C7_tapRange_frame_witness :
    ("pos-" ++ toString 2) ∈ (tapRows 3).map Row.id
    ∧ ("neg-" ++ toString 2) ∈ (tapRows 3).map Row.id :=
  C7_tapRange_frame.2.2.2.1 3 2 (by norm_num) (by norm_num)

/-- C8: `dielectricAbsorptionRatio` (calculateDAR) is `None` exactly when an
input is unparsable or the 30-second value parses to 0, else `val1m / val30s`;
`polarizationIndex` (calculatePI) is `None` exactly when an input is
unparsable or the 1-minute value parses to 0, else `val10m / val1m`; and
`DAR("2","1") = 2`, `PI("5","5") = 1`. -/
theorem C8_dar_pi_spec :
    (∀ a b, calculateDAR a b = none ↔
      parseNum a = ENum.nan ∨ parseNum b = ENum.nan ∨ parseNum b = ENum.fin 0)
    ∧ (∀ a b q1 q30, parseNum a = ENum.fin q1 → parseNum b = ENum.fin q30 → q30 ≠ 0 →
        calculateDAR a b = some (ENum.fin (q1 / q30)))
    ∧ (∀ a b, calculatePI a b = none ↔
      parseNum a = ENum.nan ∨ parseNum b = ENum.nan ∨ parseNum b = ENum.fin 0)
    ∧ (∀ a b q10 q1, parseNum a = ENum.fin q10 → parseNum b = ENum.fin q1 → q1 ≠ 0 →
        calculatePI a b = some (ENum.fin (q10 / q1)))
    ∧ calculateDAR "2" "1" = some (ENum.fin 2)
    ∧ calculatePI "5" "5" = some (ENum.fin 1) := by
  refine ⟨calculateDAR_none_iff, fun a b q1 q30 h1 h30 h => calculateDAR_eq h1 h30 h,
    calculatePI_none_iff, fun a b q10 q1 h10 h1 h => calculatePI_eq h10 h1 h, ?_, ?_⟩
  · rw [calculateDAR_eq parseNum_2 parseNum_1 (by norm_num)]; norm_num
  · rw [calculatePI_eq parseNum_5 parseNum_5 (by norm_num)]; norm_num

theorem C8_dar_pi_spec_witness :
    calculateDAR "2" "1" = some (ENum.fin (2 / 1)) :=
  C8_dar_pi_spec.2.1 "2" "1" 2 1 parseNum_2 parseNum_1 (by norm_num)

/-- C9 counterexample: `formatNum` applied to +Infinity yields the literal
"Infinity", not the placeholder "-" the claim requires for every non-finite
value (`isNaN(Infinity)` is false, so the placeholder guard does not fire). -/
theorem C9_formatNum_counterexample :
    formatNum (some ENum.pinf) 3 = "Infinity" ∧ formatNum (some ENum.pinf) 3 ≠ "-" := by
  constructor
  · rfl
  · decide

/-- C9 amended: `formatNum` yields the placeholder "-" for an absent value
(null/undefined) and for NaN, but renders +Infinity as "Infinity" and
-Infinity as "-Infinity"; the decimal count defaults to 3; and a finite value
is rendered fixed-point to `d` decimals (magnitude rounded half away from
zero) with the period replaced by a comma — equivalently, parsing the
rendered text back recovers exactly the value rounded to `d` decimal
places. -/
theorem C9_formatNum_amended :
    (∀ d, formatNum none d = "-")
    ∧ (∀ d, formatNum (some ENum.nan) d = "-")
    ∧ (∀ d, formatNum (some ENum.pinf) d = "Infinity")
    ∧ (∀ d, formatNum (some ENum.ninf) d = "-Infinity")
    ∧ (∀ v, formatNum v = formatNum v 3)
    ∧ (∀ q d, parseNum (formatNum (some (ENum.fin q)) d) = ENum.fin (jsRound q d)) :=
  ⟨fun _ => rfl, fun _ => rfl, fun _ => rfl, fun _ => rfl, fun _ => rfl,
   parseNum_formatNum_fin⟩

/-- C10: a newly created project is not empty: exactly 4 TG-delta rows and 6
insulation rows, each holding only a fresh id from the id supply and no other
fields; `data` is the empty mapping, `tapRange` is 5, and the resistance
settings default to measuredTemp "20", refTemp "75" and the three connection
names. -/
theorem C10_newProject_defaults (gen : ℕ → String) (now today : String) :
    (handleCreateProject gen now today).tgDeltaData =
      [⟨gen 1, []⟩, ⟨gen 2, []⟩, ⟨gen 3, []⟩, ⟨gen 4, []⟩]
    ∧ (handleCreateProject gen now today).insulationData =
      [⟨gen 5, []⟩, ⟨gen 6, []⟩, ⟨gen 7, []⟩, ⟨gen 8, []⟩, ⟨gen 9, []⟩, ⟨gen 10, []⟩]
    ∧ (handleCreateProject gen now today).tgDeltaData.length = 4
    ∧ (handleCreateProject gen now today).insulationData.length = 6
    ∧ (handleCreateProject gen now today).data = []
    ∧ (handleCreateProject gen now today).tapRange = 5
    ∧ (handleCreateProject gen now today).resistanceSettings =
        ⟨"20", "75", "Conexión 1", "Conexión 2", "Conexión 3"⟩ :=
  ⟨rfl, rfl, rfl, rfl, rfl, rfl, rfl⟩
